import Mathlib

/-
Verification of the counter service in `app/counter_service.py`.

The service layer (`CounterService`) is embedded directly from the source.
The persistence layer (`app.models` / `app.database`) is not part of the
source tree, so the store is modelled from the specification (section 3,
"Data model", and section 4.1, "Persistence Store"): a table of counter
records with fetch-by-id, query-by-name, insert (assigning a fresh `id`
and both timestamps) and save.  Wall-clock time (`datetime.utcnow`) is
modelled as a logical clock held in the store state that strictly
increases at every call, matching the specification's assumption that
successive timestamps strictly advance.
-/

namespace CounterApp

/-- Modelled from the spec: the Counter entity of `app.models` (absent from
the source tree), with `id`, `name`, a signed unconstrained `value`, and
the two timestamps. -/
structure Counter where
  id : Nat
  name : String
  value : Int
  created_at : Nat
  updated_at : Nat
deriving DecidableEq

/-- Modelled from the spec: the `CounterCreate` payload of `app.models`
(name and initial value). -/
structure CounterCreate where
  name : String
  value : Int
deriving DecidableEq

/-- Modelled from the spec: the `CounterUpdate` payload of `app.models`;
`value = none` is the unset sentinel of `updateCounter`. -/
structure CounterUpdate where
  value : Option Int
deriving DecidableEq

/-- Modelled from the spec: the persistence store of `app.database` — the
table of counter records, the next id the store will assign, and the
logical clock standing for `datetime.utcnow`. -/
structure Store where
  counters : List Counter
  nextId : Nat
  clock : Nat
deriving DecidableEq

/-- Modelled from the spec: `findByName(name)` — first matching record or
absence. -/
def findByName (s : Store) (name : String) : Option Counter :=
  s.counters.find? (fun c => c.name == name)

/-- Modelled from the spec: `getById(id)` (`session.get(Counter, id)`) —
the record or absence. -/
def getById (s : Store) (id : Nat) : Option Counter :=
  s.counters.find? (fun c => c.id == id)

/-- Modelled from the spec: `insert(name, value)` — persists a new record,
assigns `id`, `created_at`, `updated_at`; returns the populated record.
Reading the clock advances it. -/
def insert (s : Store) (name : String) (value : Int) : Counter × Store :=
  let c : Counter := ⟨s.nextId, name, value, s.clock, s.clock⟩
  (c, ⟨s.counters ++ [c], s.nextId + 1, s.clock + 1⟩)

/-- Modelled from the spec: `save(counter)` applied to the record table —
persists the mutated record `c2` in place of the record holding id `id`. -/
def saveIn (l : List Counter) (id : Nat) (c2 : Counter) : List Counter :=
  l.map (fun x => if x.id == id then c2 else x)

/-- `CounterService.get_or_create_default_counter`: look up the record
named "default"; if absent, insert one with value 0. -/
def get_or_create_default_counter (s : Store) : Counter × Store :=
  match findByName s "default" with
  | some c => (c, s)
  | none => insert s "default" 0

/-- `CounterService.get_counter`: return the record or absence; the store
is untouched. -/
def get_counter (s : Store) (id : Nat) : Option Counter × Store :=
  (getById s id, s)

/-- `CounterService.create_counter`: insert a new record with the given
name and value. -/
def create_counter (s : Store) (d : CounterCreate) : Counter × Store :=
  insert s d.name d.value

/-- `CounterService.increment_counter`: load the record; on absence return
none; otherwise `value += 1`, refresh `updated_at`, persist. -/
def increment_counter (s : Store) (id : Nat) : Option Counter × Store :=
  match getById s id with
  | none => (none, s)
  | some c =>
    let c2 : Counter := { c with value := c.value + 1, updated_at := s.clock }
    (some c2, ⟨saveIn s.counters id c2, s.nextId, s.clock + 1⟩)

/-- `CounterService.decrement_counter`: load the record; on absence return
none; otherwise `value -= 1`, refresh `updated_at`, persist. -/
def decrement_counter (s : Store) (id : Nat) : Option Counter × Store :=
  match getById s id with
  | none => (none, s)
  | some c =>
    let c2 : Counter := { c with value := c.value - 1, updated_at := s.clock }
    (some c2, ⟨saveIn s.counters id c2, s.nextId, s.clock + 1⟩)

/-- `CounterService.update_counter`: on absence return none; if the
payload carries a value, set it and refresh `updated_at`, persist; on the
unset sentinel return the record unchanged with no write. -/
def update_counter (s : Store) (id : Nat) (d : CounterUpdate) : Option Counter × Store :=
  match getById s id with
  | none => (none, s)
  | some c =>
    match d.value with
    | none => (some c, s)
    | some v =>
      let c2 : Counter := { c with value := v, updated_at := s.clock }
      (some c2, ⟨saveIn s.counters id c2, s.nextId, s.clock + 1⟩)

/-- `CounterService.reset_counter`:
`update_counter(counter_id, CounterUpdate(value=0))`. -/
def reset_counter (s : Store) (id : Nat) : Option Counter × Store :=
  update_counter s id ⟨some 0⟩

/-- Well-formedness of a store state: ids are pairwise distinct and below
the next id the store will assign, and every record's timestamps are
ordered and in the past of the clock. -/
def WF (s : Store) : Prop :=
  (s.counters.map Counter.id).Nodup ∧
  (∀ c ∈ s.counters, c.id < s.nextId) ∧
  (∀ c ∈ s.counters, c.created_at ≤ c.updated_at ∧ c.updated_at < s.clock)

instance (s : Store) : Decidable (WF s) := by
  unfold WF; infer_instance

/-- One service call, viewed as a transition on the store state (the
returned record is discarded). -/
inductive Op where
  | getOrCreateDefault : Op
  | create : CounterCreate → Op
  | get : Nat → Op
  | inc : Nat → Op
  | dec : Nat → Op
  | update : Nat → CounterUpdate → Op
  | reset : Nat → Op
deriving DecidableEq

/-- The store state after one service call. -/
def applyOp (s : Store) : Op → Store
  | Op.getOrCreateDefault => (get_or_create_default_counter s).2
  | Op.create d => (create_counter s d).2
  | Op.get id => (get_counter s id).2
  | Op.inc id => (increment_counter s id).2
  | Op.dec id => (decrement_counter s id).2
  | Op.update id d => (update_counter s id d).2
  | Op.reset id => (reset_counter s id).2

/-- The store state after a sequence of service calls. -/
def run (s : Store) (ops : List Op) : Store :=
  ops.foldl applyOp s

/-- Applying `increment_counter` `n` times to the same id. -/
def incN (s : Store) (id : Nat) : Nat → Store
  | 0 => s
  | n + 1 => incN (increment_counter s id).2 id n

/-- Applying `decrement_counter` `m` times to the same id. -/
def decN (s : Store) (id : Nat) : Nat → Store
  | 0 => s
  | m + 1 => decN (decrement_counter s id).2 id m

/-! Basic facts about the store primitives. -/

theorem getById_mem (s : Store) (id : Nat) (c : Counter) (h : getById s id = some c) :
    c ∈ s.counters ∧ c.id = id := by
  refine ⟨List.mem_of_find?_eq_some h, ?_⟩
  have h2 := List.find?_some h
  simpa using h2

theorem getById_none (s : Store) (id : Nat) (h : getById s id = none) :
    ∀ c ∈ s.counters, c.id ≠ id := by
  intro c hc
  have h2 := List.find?_eq_none.mp h c hc
  simpa using h2

theorem find?_saveIn (l : List Counter) (id : Nat) (c0 c2 : Counter)
    (h : l.find? (fun x => x.id == id) = some c0) (h2 : c2.id = id) :
    (saveIn l id c2).find? (fun x => x.id == id) = some c2 := by
  induction l with
  | nil => simp [List.find?] at h
  | cons a l ih =>
    by_cases ha : a.id = id
    · simp [saveIn, ha, h2]
    · rw [List.find?_cons_of_neg] at h
      · have h3 := ih h
        simp only [saveIn, List.map_cons]
        rw [List.find?_cons_of_neg]
        · exact h3
        · simp [ha]
      · simp [ha]

theorem mem_saveIn_of_ne (l : List Counter) (id : Nat) (c2 c : Counter)
    (hc : c ∈ l) (hne : c.id ≠ id) : c ∈ saveIn l id c2 := by
  have h0 : (fun x => if x.id == id then c2 else x) c = c := by simp [hne]
  have h2 := List.mem_map_of_mem (fun x => if x.id == id then c2 else x) hc
  rw [h0] at h2
  exact h2

theorem mem_saveIn (l : List Counter) (id : Nat) (c2 y : Counter)
    (hy : y ∈ saveIn l id c2) : y = c2 ∨ (y ∈ l ∧ y.id ≠ id) := by
  obtain ⟨x, hx, hfx⟩ := List.mem_map.mp hy
  by_cases hxid : x.id = id
  · left
    rw [hxid] at hfx
    simp only [beq_self_eq_true, if_true] at hfx
    exact hfx.symm
  · right
    have hfx2 : x = y := by simpa [hxid] using hfx
    subst hfx2
    exact ⟨hx, hxid⟩

theorem saveIn_map_id (l : List Counter) (id : Nat) (c2 : Counter) (h2 : c2.id = id) :
    (saveIn l id c2).map Counter.id = l.map Counter.id := by
  unfold saveIn
  rw [List.map_map]
  apply List.map_congr_left
  intro x hx
  by_cases hxid : x.id = id
  · simp [Function.comp, hxid, h2]
  · simp [Function.comp, hxid]

theorem id_inj (l : List Counter) (hnd : (l.map Counter.id).Nodup) (c c0 : Counter)
    (hc : c ∈ l) (hc0 : c0 ∈ l) (h : c.id = c0.id) : c = c0 :=
  List.inj_on_of_nodup_map hnd hc hc0 h

/-! Equational descriptions of each service operation, by case on the
lookup outcome. -/

theorem get_or_create_hit (s : Store) (c : Counter)
    (h : findByName s "default" = some c) :
    get_or_create_default_counter s = (c, s) := by
  unfold get_or_create_default_counter
  rw [h]

theorem get_or_create_miss (s : Store) (h : findByName s "default" = none) :
    get_or_create_default_counter s = insert s "default" 0 := by
  unfold get_or_create_default_counter
  rw [h]

theorem increment_eq_none (s : Store) (id : Nat) (h : getById s id = none) :
    increment_counter s id = (none, s) := by
  unfold increment_counter
  rw [h]

theorem increment_eq_some (s : Store) (id : Nat) (c : Counter)
    (h : getById s id = some c) :
    increment_counter s id =
      (some { c with value := c.value + 1, updated_at := s.clock },
       ⟨saveIn s.counters id { c with value := c.value + 1, updated_at := s.clock },
        s.nextId, s.clock + 1⟩) := by
  unfold increment_counter
  rw [h]

theorem decrement_eq_none (s : Store) (id : Nat) (h : getById s id = none) :
    decrement_counter s id = (none, s) := by
  unfold decrement_counter
  rw [h]

theorem decrement_eq_some (s : Store) (id : Nat) (c : Counter)
    (h : getById s id = some c) :
    decrement_counter s id =
      (some { c with value := c.value - 1, updated_at := s.clock },
       ⟨saveIn s.counters id { c with value := c.value - 1, updated_at := s.clock },
        s.nextId, s.clock + 1⟩) := by
  unfold decrement_counter
  rw [h]

theorem update_eq_none (s : Store) (id : Nat) (d : CounterUpdate)
    (h : getById s id = none) :
    update_counter s id d = (none, s) := by
  unfold update_counter
  rw [h]

theorem update_eq_sentinel (s : Store) (id : Nat) (c : Counter)
    (h : getById s id = some c) :
    update_counter s id ⟨none⟩ = (some c, s) := by
  unfold update_counter
  rw [h]

theorem update_eq_some (s : Store) (id : Nat) (c : Counter) (v : Int)
    (h : getById s id = some c) :
    update_counter s id ⟨some v⟩ =
      (some { c with value := v, updated_at := s.clock },
       ⟨saveIn s.counters id { c with value := v, updated_at := s.clock },
        s.nextId, s.clock + 1⟩) := by
  unfold update_counter
  rw [h]

/-! Preservation of well-formedness by every service operation. -/

theorem WF_saveStep (s : Store) (id : Nat) (c c2 : Counter) (hWF : WF s)
    (h : getById s id = some c) (hid : c2.id = c.id) (hca : c2.created_at = c.created_at)
    (hua : c2.updated_at = s.clock) :
    WF ⟨saveIn s.counters id c2, s.nextId, s.clock + 1⟩ := by
  obtain ⟨hnd, hlt, hts⟩ := hWF
  obtain ⟨hcmem, hcid⟩ := getById_mem s id c h
  have h2 : c2.id = id := by rw [hid, hcid]
  refine ⟨?_, ?_, ?_⟩
  · dsimp only
    rw [saveIn_map_id _ _ _ h2]
    exact hnd
  · intro y hy
    dsimp only at hy ⊢
    rcases mem_saveIn _ _ _ _ hy with rfl | ⟨hyl, _⟩
    · rw [hid]
      exact hlt c hcmem
    · exact hlt y hyl
  · intro y hy
    dsimp only at hy ⊢
    rcases mem_saveIn _ _ _ _ hy with rfl | ⟨hyl, _⟩
    · have h3 := hts c hcmem
      refine ⟨?_, by omega⟩
      rw [hca, hua]
      omega
    · have h3 := hts y hyl
      exact ⟨h3.1, by omega⟩

theorem WF_insert (s : Store) (name : String) (v : Int) (hWF : WF s) :
    WF (insert s name v).2 := by
  obtain ⟨hnd, hlt, hts⟩ := hWF
  refine ⟨?_, ?_, ?_⟩
  · simp only [insert, List.map_append, List.map_cons, List.map_nil]
    rw [List.nodup_append]
    refine ⟨hnd, List.nodup_singleton _, ?_⟩
    intro a ha hb
    simp only [List.mem_singleton] at hb
    obtain ⟨x, hx, hxa⟩ := List.mem_map.mp ha
    have := hlt x hx
    omega
  · intro y hy
    simp only [insert, List.mem_append, List.mem_singleton] at hy
    rcases hy with hy | rfl
    · have := hlt y hy
      simp only [insert]
      omega
    · simp [insert]
  · intro y hy
    simp only [insert, List.mem_append, List.mem_singleton] at hy
    rcases hy with hy | rfl
    · have := hts y hy
      simp only [insert]
      omega
    · simp [insert]

theorem WF_applyOp (s : Store) (op : Op) (hWF : WF s) : WF (applyOp s op) := by
  cases op with
  | getOrCreateDefault =>
    show WF (get_or_create_default_counter s).2
    cases hf : findByName s "default" with
    | some c =>
      rw [get_or_create_hit s c hf]
      exact hWF
    | none =>
      rw [get_or_create_miss s hf]
      exact WF_insert s "default" 0 hWF
  | create d => exact WF_insert s d.name d.value hWF
  | get id => exact hWF
  | inc id =>
    show WF (increment_counter s id).2
    cases h : getById s id with
    | none =>
      rw [increment_eq_none s id h]
      exact hWF
    | some c =>
      rw [increment_eq_some s id c h]
      exact WF_saveStep s id c _ hWF h rfl rfl rfl
  | dec id =>
    show WF (decrement_counter s id).2
    cases h : getById s id with
    | none =>
      rw [decrement_eq_none s id h]
      exact hWF
    | some c =>
      rw [decrement_eq_some s id c h]
      exact WF_saveStep s id c _ hWF h rfl rfl rfl
  | update id d =>
    show WF (update_counter s id d).2
    cases h : getById s id with
    | none =>
      rw [update_eq_none s id d h]
      exact hWF
    | some c =>
      obtain ⟨dv⟩ := d
      cases dv with
      | none =>
        rw [update_eq_sentinel s id c h]
        exact hWF
      | some v =>
        rw [update_eq_some s id c v h]
        exact WF_saveStep s id c _ hWF h rfl rfl rfl
  | reset id =>
    show WF (update_counter s id ⟨some 0⟩).2
    cases h : getById s id with
    | none =>
      rw [update_eq_none s id _ h]
      exact hWF
    | some c =>
      rw [update_eq_some s id c 0 h]
      exact WF_saveStep s id c _ hWF h rfl rfl rfl

theorem run_cons (s : Store) (op : Op) (ops : List Op) :
    run s (op :: ops) = run (applyOp s op) ops := rfl

theorem run_append_eq (s : Store) (l1 l2 : List Op) :
    run s (l1 ++ l2) = run (run s l1) l2 := by
  unfold run
  exact List.foldl_append applyOp s l1 l2

theorem WF_run (s : Store) (ops : List Op) (hWF : WF s) : WF (run s ops) := by
  induction ops generalizing s with
  | nil => exact hWF
  | cons op ops ih =>
    rw [run_cons]
    exact ih _ (WF_applyOp s op hWF)

/-! No operation deletes a record, changes a record's id, or rewrites its
creation timestamp. -/

theorem mem_saveIn_self (l : List Counter) (id : Nat) (c2 c0 : Counter)
    (hc0 : c0 ∈ l) (h : c0.id = id) : c2 ∈ saveIn l id c2 := by
  have h0 : (fun x => if x.id == id then c2 else x) c0 = c2 := by simp [h]
  have h2 := List.mem_map_of_mem (fun x => if x.id == id then c2 else x) hc0
  rw [h0] at h2
  exact h2

theorem tracks_saveStep (s : Store) (id : Nat) (c0 c2 : Counter) (hWF : WF s)
    (h : getById s id = some c0) (hid : c2.id = c0.id) (hca : c2.created_at = c0.created_at)
    (c : Counter) (hc : c ∈ s.counters) :
    ∃ y ∈ saveIn s.counters id c2, y.id = c.id ∧ y.created_at = c.created_at := by
  obtain ⟨h0mem, h0id⟩ := getById_mem s id c0 h
  by_cases hcid : c.id = id
  · have hceq : c = c0 := id_inj s.counters hWF.1 c c0 hc h0mem (by rw [hcid, h0id])
    refine ⟨c2, mem_saveIn_self s.counters id c2 c0 h0mem h0id, ?_, ?_⟩
    · rw [hid, hceq]
    · rw [hca, hceq]
  · exact ⟨c, mem_saveIn_of_ne s.counters id c2 c hc hcid, rfl, rfl⟩

theorem applyOp_tracks (s : Store) (op : Op) (hWF : WF s) (c : Counter)
    (hc : c ∈ s.counters) :
    ∃ c2 ∈ (applyOp s op).counters, c2.id = c.id ∧ c2.created_at = c.created_at := by
  cases op with
  | getOrCreateDefault =>
    show ∃ c2 ∈ (get_or_create_default_counter s).2.counters, _
    cases hf : findByName s "default" with
    | some c0 =>
      rw [get_or_create_hit s c0 hf]
      exact ⟨c, hc, rfl, rfl⟩
    | none =>
      rw [get_or_create_miss s hf]
      exact ⟨c, List.mem_append_left _ hc, rfl, rfl⟩
  | create d =>
    exact ⟨c, List.mem_append_left _ hc, rfl, rfl⟩
  | get id => exact ⟨c, hc, rfl, rfl⟩
  | inc id =>
    show ∃ c2 ∈ (increment_counter s id).2.counters, _
    cases h : getById s id with
    | none =>
      rw [increment_eq_none s id h]
      exact ⟨c, hc, rfl, rfl⟩
    | some c0 =>
      rw [increment_eq_some s id c0 h]
      exact tracks_saveStep s id c0
        { c0 with value := c0.value + 1, updated_at := s.clock } hWF h rfl rfl c hc
  | dec id =>
    show ∃ c2 ∈ (decrement_counter s id).2.counters, _
    cases h : getById s id with
    | none =>
      rw [decrement_eq_none s id h]
      exact ⟨c, hc, rfl, rfl⟩
    | some c0 =>
      rw [decrement_eq_some s id c0 h]
      exact tracks_saveStep s id c0
        { c0 with value := c0.value - 1, updated_at := s.clock } hWF h rfl rfl c hc
  | update id d =>
    show ∃ c2 ∈ (update_counter s id d).2.counters, _
    cases h : getById s id with
    | none =>
      rw [update_eq_none s id d h]
      exact ⟨c, hc, rfl, rfl⟩
    | some c0 =>
      obtain ⟨dv⟩ := d
      cases dv with
      | none =>
        rw [update_eq_sentinel s id c0 h]
        exact ⟨c, hc, rfl, rfl⟩
      | some v =>
        rw [update_eq_some s id c0 v h]
        exact tracks_saveStep s id c0
          { c0 with value := v, updated_at := s.clock } hWF h rfl rfl c hc
  | reset id =>
    show ∃ c2 ∈ (update_counter s id ⟨some 0⟩).2.counters, _
    cases h : getById s id with
    | none =>
      rw [update_eq_none s id _ h]
      exact ⟨c, hc, rfl, rfl⟩
    | some c0 =>
      rw [update_eq_some s id c0 0 h]
      exact tracks_saveStep s id c0
        { c0 with value := 0, updated_at := s.clock } hWF h rfl rfl c hc

theorem run_tracks (ops : List Op) : ∀ s : Store, WF s → ∀ c ∈ s.counters,
    ∃ c2 ∈ (run s ops).counters, c2.id = c.id ∧ c2.created_at = c.created_at := by
  induction ops with
  | nil => exact fun s _ c hc => ⟨c, hc, rfl, rfl⟩
  | cons op ops ih =>
    intro s hWF c hc
    obtain ⟨c1, hc1, hid1, hca1⟩ := applyOp_tracks s op hWF c hc
    obtain ⟨c2, hc2, hid2, hca2⟩ := ih (applyOp s op) (WF_applyOp s op hWF) c1 hc1
    rw [run_cons]
    exact ⟨c2, hc2, by rw [hid2, hid1], by rw [hca2, hca1]⟩

/-! Lookup after insertion and after a persisted mutation. -/

theorem getById_insert (s : Store) (name : String) (v : Int) (hWF : WF s) :
    getById (insert s name v).2 (insert s name v).1.id = some (insert s name v).1 := by
  show ((s.counters ++ [(⟨s.nextId, name, v, s.clock, s.clock⟩ : Counter)]).find?
    (fun x => x.id == s.nextId)) = _
  rw [List.find?_append]
  have h1 : s.counters.find? (fun x => x.id == s.nextId) = none := by
    rw [List.find?_eq_none]
    intro x hx
    have h2 := hWF.2.1 x hx
    simp only [beq_iff_eq]
    omega
  rw [h1]
  simp [insert]

theorem getById_increment (s : Store) (id : Nat) (c : Counter)
    (h : getById s id = some c) :
    getById (increment_counter s id).2 id =
      some { c with value := c.value + 1, updated_at := s.clock } := by
  rw [increment_eq_some s id c h]
  exact find?_saveIn s.counters id c _ h (getById_mem s id c h).2

theorem getById_decrement (s : Store) (id : Nat) (c : Counter)
    (h : getById s id = some c) :
    getById (decrement_counter s id).2 id =
      some { c with value := c.value - 1, updated_at := s.clock } := by
  rw [decrement_eq_some s id c h]
  exact find?_saveIn s.counters id c _ h (getById_mem s id c h).2

theorem incN_getById (n : Nat) : ∀ (s : Store) (id : Nat) (c : Counter),
    getById s id = some c →
    ∃ c2, getById (incN s id n) id = some c2 ∧ c2.value = c.value + n := by
  induction n with
  | zero =>
    intro s id c h
    exact ⟨c, h, by simp⟩
  | succ n ih =>
    intro s id c h
    obtain ⟨c2, h2, hv⟩ := ih (increment_counter s id).2 id _ (getById_increment s id c h)
    refine ⟨c2, h2, ?_⟩
    simp only at hv
    omega

theorem decN_getById (m : Nat) : ∀ (s : Store) (id : Nat) (c : Counter),
    getById s id = some c →
    ∃ c2, getById (decN s id m) id = some c2 ∧ c2.value = c.value - m := by
  induction m with
  | zero =>
    intro s id c h
    exact ⟨c, h, by simp⟩
  | succ m ih =>
    intro s id c h
    obtain ⟨c2, h2, hv⟩ := ih (decrement_counter s id).2 id _ (getById_decrement s id c h)
    refine ⟨c2, h2, ?_⟩
    simp only at hv
    omega

/-! Concrete store states used to instantiate the theorems below. -/

/-- A store holding one record, id 1, name "a", value 5. -/
def cA : Counter := ⟨1, "a", 5, 0, 0⟩

/-- The well-formed store holding only `cA`. -/
def storeA : Store := ⟨[cA], 2, 1⟩

/-- A record whose value is already 0. -/
def cZ : Counter := ⟨1, "z", 0, 0, 0⟩

/-- The well-formed store holding only `cZ`. -/
def storeZ : Store := ⟨[cZ], 2, 1⟩

/-! The claims. -/

/-- C1: for every id not present in the store, each of `get_counter`,
`increment_counter`, `decrement_counter`, `update_counter` and
`reset_counter` returns `none` rather than raising a fault, and the store
state after the call equals the store state before the call. -/
theorem absent_id_is_noop (s : Store) (id : Nat) (d : CounterUpdate)
    (h : getById s id = none) :
    get_counter s id = (none, s) ∧ increment_counter s id = (none, s) ∧
    decrement_counter s id = (none, s) ∧ update_counter s id d = (none, s) ∧
    reset_counter s id = (none, s) := by
  refine ⟨?_, increment_eq_none s id h, decrement_eq_none s id h,
    update_eq_none s id d h, update_eq_none s id ⟨some 0⟩ h⟩
  unfold get_counter
  rw [h]

theorem absent_id_is_noop_witness :
    get_counter storeA 5 = (none, storeA) ∧ increment_counter storeA 5 = (none, storeA) ∧
    decrement_counter storeA 5 = (none, storeA) ∧
    update_counter storeA 5 ⟨some 7⟩ = (none, storeA) ∧
    reset_counter storeA 5 = (none, storeA) :=
  absent_id_is_noop storeA 5 ⟨some 7⟩ (by decide)

/-- C2: for a counter created with initial value `v`, incrementing its id
`n` times and then decrementing `m` times leaves its stored value at
`v + n - m` over the integers, so the result may be negative (no floor). -/
theorem createIncDec_value (s : Store) (d : CounterCreate) (n m : Nat) (hWF : WF s) :
    ∃ c2, getById (decN (incN (create_counter s d).2 (create_counter s d).1.id n)
        (create_counter s d).1.id m) (create_counter s d).1.id = some c2 ∧
      c2.value = d.value + n - m := by
  have h0 : getById (create_counter s d).2 (create_counter s d).1.id =
      some (create_counter s d).1 := getById_insert s d.name d.value hWF
  obtain ⟨c1, h1, hv1⟩ := incN_getById n _ _ _ h0
  obtain ⟨c2, h2, hv2⟩ := decN_getById m _ _ _ h1
  refine ⟨c2, h2, ?_⟩
  have h3 : (create_counter s d).1.value = d.value := rfl
  omega

theorem createIncDec_value_witness :
    WF storeA ∧
    ∃ c2, getById (decN (incN (create_counter storeA ⟨"b", 3⟩).2
        (create_counter storeA ⟨"b", 3⟩).1.id 2) (create_counter storeA ⟨"b", 3⟩).1.id 5)
      (create_counter storeA ⟨"b", 3⟩).1.id = some c2 ∧ c2.value = (-0 : Int) - 0 := by
  refine ⟨by decide, ?_⟩
  obtain ⟨c2, h2, hv⟩ := createIncDec_value storeA ⟨"b", 3⟩ 2 5 (by decide)
  refine ⟨c2, h2, ?_⟩
  rw [hv]
  decide

/-- C3: for a present id, `update_counter` with the unset sentinel returns
the record with value and `updated_at` unchanged (and the store untouched),
while `update_counter` with a provided value `X` stores value `X` with an
`updated_at` strictly later than the record's `updated_at` before the
call. -/
theorem updateCounter_sentinel_and_set (s : Store) (id : Nat) (c : Counter) (X : Int)
    (hWF : WF s) (h : getById s id = some c) :
    update_counter s id ⟨none⟩ = (some c, s) ∧
    ∃ c2, (update_counter s id ⟨some X⟩).1 = some c2 ∧
      getById (update_counter s id ⟨some X⟩).2 id = some c2 ∧
      c2.value = X ∧ c.updated_at < c2.updated_at := by
  refine ⟨update_eq_sentinel s id c h, ?_⟩
  refine ⟨{ c with value := X, updated_at := s.clock }, ?_, ?_, rfl, ?_⟩
  · rw [update_eq_some s id c X h]
  · rw [update_eq_some s id c X h]
    exact find?_saveIn s.counters id c _ h (getById_mem s id c h).2
  · exact (hWF.2.2 c (getById_mem s id c h).1).2

theorem updateCounter_sentinel_and_set_witness :
    update_counter storeA 1 ⟨none⟩ = (some cA, storeA) ∧
    ∃ c2, (update_counter storeA 1 ⟨some 42⟩).1 = some c2 ∧
      getById (update_counter storeA 1 ⟨some 42⟩).2 1 = some c2 ∧
      c2.value = 42 ∧ cA.updated_at < c2.updated_at :=
  updateCounter_sentinel_and_set storeA 1 cA 42 (by decide) (by decide)

/-- C4: `reset_counter id` returns the same result and the same store
state as `update_counter id` with value 0, and for every existing counter
the stored value becomes exactly 0 regardless of its prior value. -/
theorem resetCounter_eq_update_zero (s : Store) (id : Nat) :
    reset_counter s id = update_counter s id ⟨some 0⟩ ∧
    ∀ c, getById s id = some c →
      ∃ c2, (reset_counter s id).1 = some c2 ∧
        getById (reset_counter s id).2 id = some c2 ∧ c2.value = 0 := by
  refine ⟨rfl, ?_⟩
  intro c h
  refine ⟨{ c with value := 0, updated_at := s.clock }, ?_, ?_, rfl⟩
  · show (update_counter s id ⟨some 0⟩).1 = _
    rw [update_eq_some s id c 0 h]
  · show getById (update_counter s id ⟨some 0⟩).2 id = _
    rw [update_eq_some s id c 0 h]
    exact find?_saveIn s.counters id c _ h (getById_mem s id c h).2

theorem resetCounter_eq_update_zero_witness :
    reset_counter storeA 1 = update_counter storeA 1 ⟨some 0⟩ ∧
    ∃ c2, (reset_counter storeA 1).1 = some c2 ∧
      getById (reset_counter storeA 1).2 1 = some c2 ∧ c2.value = 0 := by
  obtain ⟨h1, h2⟩ := resetCounter_eq_update_zero storeA 1
  exact ⟨h1, h2 cA (by decide)⟩

/-- C5: on a store with no record named "default", the first call of
`get_or_create_default_counter` inserts a record with name "default" and
value 0; a second sequential call returns a record with the same id and
name "default" and leaves the store unchanged, and afterwards exactly one
record named "default" exists (so at most one). -/
theorem default_counter_singleton (s : Store) (h : findByName s "default" = none) :
    (get_or_create_default_counter s).1.name = "default" ∧
    (get_or_create_default_counter s).1.value = 0 ∧
    (get_or_create_default_counter (get_or_create_default_counter s).2).1.id =
      (get_or_create_default_counter s).1.id ∧
    (get_or_create_default_counter (get_or_create_default_counter s).2).1.name =
      "default" ∧
    (get_or_create_default_counter (get_or_create_default_counter s).2).2 =
      (get_or_create_default_counter s).2 ∧
    (get_or_create_default_counter s).2.counters.countP
      (fun c => c.name == "default") = 1 := by
  have hm := get_or_create_miss s h
  have hfind : findByName (get_or_create_default_counter s).2 "default" =
      some (get_or_create_default_counter s).1 := by
    rw [hm]
    show ((s.counters ++ [(⟨s.nextId, "default", 0, s.clock, s.clock⟩ : Counter)]).find?
      (fun x => x.name == "default")) = _
    rw [List.find?_append]
    have h1 : s.counters.find? (fun x => x.name == "default") = none := h
    rw [h1]
    simp [insert]
  have hhit := get_or_create_hit _ _ hfind
  refine ⟨?_, ?_, ?_, ?_, ?_, ?_⟩
  · rw [hm]
    rfl
  · rw [hm]
    rfl
  · rw [hhit]
  · rw [hhit, hm]
    rfl
  · rw [hhit]
  · rw [hm]
    show (s.counters ++ [(⟨s.nextId, "default", 0, s.clock, s.clock⟩ : Counter)]).countP
      (fun c => c.name == "default") = 1
    rw [List.countP_append]
    have h0 : s.counters.countP (fun c => c.name == "default") = 0 := by
      rw [List.countP_eq_zero]
      exact List.find?_eq_none.mp h
    rw [h0]
    simp

theorem default_counter_singleton_witness :
    (get_or_create_default_counter storeA).1.name = "default" ∧
    (get_or_create_default_counter storeA).1.value = 0 ∧
    (get_or_create_default_counter (get_or_create_default_counter storeA).2).1.id =
      (get_or_create_default_counter storeA).1.id ∧
    (get_or_create_default_counter (get_or_create_default_counter storeA).2).1.name =
      "default" ∧
    (get_or_create_default_counter (get_or_create_default_counter storeA).2).2 =
      (get_or_create_default_counter storeA).2 ∧
    (get_or_create_default_counter storeA).2.counters.countP
      (fun c => c.name == "default") = 1 :=
  default_counter_singleton storeA (by decide)

/-- C6: after every sequence of service operations from a well-formed
store, every stored record satisfies `created_at <= updated_at`, and the
creation timestamp of every record present before the sequence is still
carried unchanged by the record with its id afterwards. -/
theorem timestamps_invariant (s : Store) (ops : List Op) (hWF : WF s) :
    (∀ c ∈ (run s ops).counters, c.created_at ≤ c.updated_at) ∧
    (∀ c ∈ s.counters, ∃ c2 ∈ (run s ops).counters,
      c2.id = c.id ∧ c2.created_at = c.created_at) := by
  refine ⟨?_, run_tracks ops s hWF⟩
  intro c hc
  exact ((WF_run s ops hWF).2.2 c hc).1

theorem timestamps_invariant_witness :
    ∃ c2 ∈ (run storeA [Op.inc 1, Op.getOrCreateDefault]).counters,
      c2.id = cA.id ∧ c2.created_at = cA.created_at :=
  (timestamps_invariant storeA [Op.inc 1, Op.getOrCreateDefault] (by decide)).2
    cA (by decide)

/-- C7: no service operation removes a record: every record present after
some operation sequence is still represented, with the same id, after any
further operation sequence. -/
theorem records_persist (s : Store) (ops1 ops2 : List Op) (hWF : WF s) :
    ∀ c ∈ (run s ops1).counters,
      ∃ c2 ∈ (run s (ops1 ++ ops2)).counters, c2.id = c.id := by
  intro c hc
  rw [run_append_eq]
  obtain ⟨c2, h2, hid, _⟩ := run_tracks ops2 (run s ops1) (WF_run s ops1 hWF) c hc
  exact ⟨c2, h2, hid⟩

theorem records_persist_witness :
    ∃ c2 ∈ (run storeA ([Op.inc 1] ++ [Op.reset 1, Op.dec 1])).counters,
      c2.id = 1 :=
  records_persist storeA [Op.inc 1] [Op.reset 1, Op.dec 1] (by decide)
    ⟨1, "a", 6, 0, 1⟩ (by decide)

theorem filter_saveIn (l : List Counter) (id : Nat) (c2 : Counter) (h2 : c2.id = id) :
    (saveIn l id c2).filter (fun x => !(x.id == id)) =
      l.filter (fun x => !(x.id == id)) := by
  unfold saveIn
  rw [List.filter_map]
  have hpf : ((fun x => !(x.id == id)) ∘ (fun x => if x.id == id then c2 else x)) =
      (fun x : Counter => !(x.id == id)) := by
    funext x
    by_cases hx : x.id = id
    · simp [hx, h2]
    · simp [hx]
  rw [hpf]
  have hid : ∀ x ∈ l.filter (fun x => !(x.id == id)),
      (fun x => if x.id == id then c2 else x) x = x := by
    intro x hx
    have h3 := List.of_mem_filter hx
    simp only [Bool.not_eq_true', beq_eq_false_iff_ne] at h3
    simp [h3]
  rw [List.map_congr_left hid, List.map_id']

/-- C8: each mutating operation applied to an id leaves every record whose
id differs completely unchanged: the sublist of records with a different
id is identical before and after. -/
theorem frame_other_records (s : Store) (id : Nat) (d : CounterUpdate) :
    (increment_counter s id).2.counters.filter (fun x => !(x.id == id)) =
      s.counters.filter (fun x => !(x.id == id)) ∧
    (decrement_counter s id).2.counters.filter (fun x => !(x.id == id)) =
      s.counters.filter (fun x => !(x.id == id)) ∧
    (update_counter s id d).2.counters.filter (fun x => !(x.id == id)) =
      s.counters.filter (fun x => !(x.id == id)) ∧
    (reset_counter s id).2.counters.filter (fun x => !(x.id == id)) =
      s.counters.filter (fun x => !(x.id == id)) := by
  refine ⟨?_, ?_, ?_, ?_⟩
  · cases h : getById s id with
    | none => rw [increment_eq_none s id h]
    | some c0 =>
      rw [increment_eq_some s id c0 h]
      exact filter_saveIn s.counters id _ (getById_mem s id c0 h).2
  · cases h : getById s id with
    | none => rw [decrement_eq_none s id h]
    | some c0 =>
      rw [decrement_eq_some s id c0 h]
      exact filter_saveIn s.counters id _ (getById_mem s id c0 h).2
  · cases h : getById s id with
    | none => rw [update_eq_none s id d h]
    | some c0 =>
      obtain ⟨dv⟩ := d
      cases dv with
      | none => rw [update_eq_sentinel s id c0 h]
      | some v =>
        rw [update_eq_some s id c0 v h]
        exact filter_saveIn s.counters id _ (getById_mem s id c0 h).2
  · show (update_counter s id ⟨some 0⟩).2.counters.filter _ = _
    cases h : getById s id with
    | none => rw [update_eq_none s id _ h]
    | some c0 =>
      rw [update_eq_some s id c0 0 h]
      exact filter_saveIn s.counters id _ (getById_mem s id c0 h).2

/-- C9: `reset_counter` on an existing counter whose value is already 0
still takes the mutation path: the stored value stays 0 but `updated_at`
is strictly refreshed and the clock advances, because 0 is a provided
value and not the unset sentinel. -/
theorem reset_zero_refreshes (s : Store) (id : Nat) (c : Counter)
    (hWF : WF s) (h : getById s id = some c) (_hv : c.value = 0) :
    ∃ c2, (reset_counter s id).1 = some c2 ∧ c2.value = 0 ∧
      c.updated_at < c2.updated_at ∧ (reset_counter s id).2.clock = s.clock + 1 := by
  refine ⟨{ c with value := 0, updated_at := s.clock }, ?_, rfl, ?_, ?_⟩
  · show (update_counter s id ⟨some 0⟩).1 = _
    rw [update_eq_some s id c 0 h]
  · exact (hWF.2.2 c (getById_mem s id c h).1).2
  · show (update_counter s id ⟨some 0⟩).2.clock = s.clock + 1
    rw [update_eq_some s id c 0 h]

theorem reset_zero_refreshes_witness :
    ∃ c2, (reset_counter storeZ 1).1 = some c2 ∧ c2.value = 0 ∧
      cZ.updated_at < c2.updated_at ∧ (reset_counter storeZ 1).2.clock = storeZ.clock + 1 :=
  reset_zero_refreshes storeZ 1 cZ (by decide) (by decide) (by decide)

/-- C10: `get_counter` is a pure read: for every id and every store state
the store after the call equals the store before the call. -/
theorem getCounter_pure (s : Store) (id : Nat) : (get_counter s id).2 = s := rfl

end CounterApp
